import Mathlib

/-
Verification of the size-bounded serialization and request-building core of
the Datadog logs sink (src/sinks/datadog/logs/sink.rs).

The embedding models events abstractly: an event carries its routing
metadata (the optional Datadog API key), the byte sequence that
serde_json::to_writer would append for its log representation (or a
serialization error), and the O(1) estimated JSON-encoded size that
estimated_json_encoded_size_of returns for it.  Bytes are modelled as
natural numbers.
-/

namespace DatadogLogs

/-- ASCII code of the opening bracket written by buf.push with a left bracket. -/
def lbrack : Nat := 91

/-- ASCII code of the comma separator written between serialized events. -/
def comma : Nat := 44

/-- ASCII code of the closing bracket written after the loop. -/
def rbrack : Nat := 93

/-- Model of a pipeline event.  The field json is the result of
serde_json serialization of the event log representation as performed by
serde_json::to_writer in serialize_with_capacity: either the appended
bytes or a serialization failure.  serialize_with_capacity returns
io::Error, so the serde_json error is converted into an io error by the
question-mark operator inside it; the number models that resulting io
error value.
The field estimate models estimated_json_encoded_size_of, the O(1)
estimate computed in build_request before serialization.  The field
apiKey models metadata().datadog_api_key() used by the partitioner, and
id gives events an identity (standing in for payload and finalizer). -/
instance : DecidableEq (Except Nat (List Nat)) := fun a b =>
  match a, b with
  | .ok x, .ok y =>
      if h : x = y then isTrue (by rw [h]) else isFalse (by simp [h])
  | .error x, .error y =>
      if h : x = y then isTrue (by rw [h]) else isFalse (by simp [h])
  | .ok _, .error _ => isFalse (by simp)
  | .error _, .ok _ => isFalse (by simp)

structure Event where
  id : Nat
  apiKey : Option String
  json : Except Nat (List Nat)
  estimate : Nat
deriving DecidableEq

/-- The bytes an event serializes to, when serialization succeeds. -/
def Event.jsonBytes (e : Event) : List Nat :=
  match e.json with
  | .ok j => j
  | .error _ => []

/-- Whether serde_json serialization of the event succeeds. -/
def Event.jsonOk (e : Event) : Bool :=
  match e.json with
  | .ok _ => true
  | .error _ => false

/-- Model of the telemetry byte-size accumulator GroupedCountByteSize.
The real accumulator groups counts and byte totals by telemetry tags; the
model keeps the aggregate event count and byte total, which is what the
claims are about. -/
structure GroupedCountByteSize where
  count : Nat
  bytes : Nat

/-- telemetry().create_request_count_byte_size(): the empty accumulator. -/
def create_request_count_byte_size : GroupedCountByteSize :=
  { count := 0, bytes := 0 }

/-- byte_size.add_event(event, size): counts one more event and adds the
given size (the code passes the estimated JSON size) to the byte total. -/
def GroupedCountByteSize.add_event (bs : GroupedCountByteSize) (_event : Event)
    (size : Nat) : GroupedCountByteSize :=
  { count := bs.count + 1, bytes := bs.bytes + size }

/-- Folding add_event over a list of committed (event, estimated size)
pairs, in order. -/
def addCommitted (bs : GroupedCountByteSize) (comm : List (Event × Nat)) :
    GroupedCountByteSize :=
  comm.foldl (fun b p => b.add_event p.1 p.2) bs

/-- The while-let loop of serialize_with_capacity (sink.rs lines 347-365),
with the loop state (buffer, first flag, byte-size accumulator,
events_serialized) passed explicitly.  cap is MAX_PAYLOAD_BYTES, imported
in the source from the sink config module which is not part of this
repository snapshot; following the spec it is the configured maximum
payload size, taken here as a parameter.  The returned quadruple is
(events_serialized, buf, byte_size, remaining queue): the Rust function
mutates the queue in place, so the queue left behind is returned as the
fourth component. -/
def swcGo (cap : Nat) :
    List (Event × Nat) → List Nat → Bool → GroupedCountByteSize → List Event →
    Except Nat (List Event × List Nat × GroupedCountByteSize × List (Event × Nat))
  | [], buf, _, byte_size, events_serialized =>
      .ok (events_serialized, buf ++ [rbrack], byte_size, [])
  | (event, estimated_json_size) :: rest, buf, first, byte_size, events_serialized =>
      let existing_len := buf.length
      let buf1 := if first then buf else buf ++ [comma]
      match event.json with
      | .error e => .error e
      | .ok ejson =>
          let buf2 := buf1 ++ ejson
          if cap ≤ buf2.length then
            .ok (events_serialized, buf2.take existing_len ++ [rbrack], byte_size,
                 (event, estimated_json_size) :: rest)
          else
            swcGo cap rest buf2 false (byte_size.add_event event estimated_json_size)
              (events_serialized ++ [event])

/-- serialize_with_capacity (sink.rs lines 332-369): serialize events into
a buffer as a JSON array bounded by the payload cap.  Opens the bracket,
runs the loop, and the loop appends the closing bracket on every exit
path, exactly as in the source. -/
def serialize_with_capacity (cap : Nat) (events : List (Event × Nat)) :
    Except Nat (List Event × List Nat × GroupedCountByteSize × List (Event × Nat)) :=
  swcGo cap events [lbrack] true create_request_count_byte_size []

/-- Joins byte sequences with a comma between consecutive ones. -/
def joinComma : List (List Nat) → List Nat
  | [] => []
  | j :: rest => rest.foldl (fun acc x => acc ++ comma :: x) j

/-- The buffer contents after the committed events have been written and
before the closing bracket: opening bracket, then the serialized events
separated by commas. -/
def renderOpen (jsons : List (List Nat)) : List Nat :=
  lbrack :: joinComma jsons

/-- The complete emitted container: committed events between the opening
and closing brackets. -/
def renderClose (jsons : List (List Nat)) : List Nat :=
  renderOpen jsons ++ [rbrack]

/-- Specification-level greedy pass, written from the spec words: for
each event in front-to-back order, if appending its serialization (after
a separating comma) would make the buffer meet or exceed the hard cap,
the buffer is reverted to its contents before this event, the event
stays at the front of the remaining queue and the pass stops; otherwise
the event is committed and the pass continues.  Returns the committed
(event, estimated size) pairs and the remaining queue; the buffer is
determined declaratively as the rendering of the committed
serializations. -/
def greedySpec (cap : Nat) (jsons : List (List Nat)) :
    List (Event × Nat) → List (Event × Nat) × List (Event × Nat)
  | [] => ([], [])
  | (event, est) :: rest =>
      let j := event.jsonBytes
      if cap ≤ (renderOpen (jsons ++ [j])).length then
        ([], (event, est) :: rest)
      else
        let r := greedySpec cap (jsons ++ [j]) rest
        ((event, est) :: r.1, r.2)

/-- The error type of request building (sink.rs lines 221-229), with its
three kinds.  The Io and Json payloads model the opaque std io error and
serde_json error values.  Only the Io kind is ever constructed by
build_request: both its fallible calls (serialize_with_capacity and the
codec write) fail with io::Error. -/
inductive RequestBuildError where
  | PayloadTooBig (events_that_fit : Nat)
  | Io (error : Nat)
  | Json (error : Nat)

/-- Model of LogApiRequest, the wire request handed to the service.  The
events field holds the consumed events, standing in for the finalizers
moved out of them by take_finalizers and for the per-request metadata
counts. -/
structure LogApiRequest where
  api_key : String
  events : List Event
  compression : Bool
  uncompressed_size : Nat
  byte_size : GroupedCountByteSize
  body : List Nat

/-- Model of LogRequestBuilder.  The transform field models the per-event
preprocessing of build_request lines 259-264 (normalize_event, the
conditional normalize_as_agent_event, and Transformer::transform) —
Modelled from the spec: the semantics of those steps live in the
vector_lib event types outside this repository snapshot, and the spec
treats them as a synchronous side-effect-free function from event to
event.  The compress field models writing the buffer through the
configured Compressor (an io error is possible) — Modelled from the
spec: a pluggable codec with a byte-size contract, outside this
snapshot. -/
structure LogRequestBuilder where
  default_api_key : String
  transform : Event → Event
  compress : List Nat → Except Nat (List Nat)
  is_compressed : Bool

/-- finish_request (sink.rs lines 292-324): record the event count and
the uncompressed buffer length, compress the buffer (an io error aborts),
move the finalizers of the consumed events into the request and attach
the byte-size metadata. -/
def finish_request (B : LogRequestBuilder) (buf : List Nat) (events : List Event)
    (byte_size : GroupedCountByteSize) (api_key : String) :
    Except RequestBuildError LogApiRequest :=
  let uncompressed_size := buf.length
  match B.compress buf with
  | .error e => .error (RequestBuildError.Io e)
  | .ok bytes =>
      .ok { api_key := api_key, events := events, compression := B.is_compressed,
            uncompressed_size := uncompressed_size, byte_size := byte_size,
            body := bytes }

/-- The while loop of build_request (sink.rs lines 272-287).  Each pass
of the serializer either commits at least one event (a request is
finished from the returned buffer and the loop continues on the mutated
queue) or commits none, in which case the head event is popped and one
drop telemetry signal with count one is emitted (modelled by consing the
popped event onto the returned drops list).  A serializer error or a
finish_request error aborts the whole call.  The serializer's error is
an io error (sink.rs line 334), so the question-mark operator at line
274 converts it through the From io::Error impl at line 231 into the Io
kind of RequestBuildError. -/
def buildLoop (B : LogRequestBuilder) (cap : Nat) (api_key : String)
    (q : List (Event × Nat)) :
    Except RequestBuildError (List LogApiRequest × List Event) :=
  if hq : q = [] then .ok ([], [])
  else
    match hs : serialize_with_capacity cap q with
    | .error e => .error (RequestBuildError.Io e)
    | .ok (ser, body, bs, rem) =>
        if hser : ser = [] then
          (buildLoop B cap api_key (rem.drop 1)).map
            (fun p => (p.1, (rem.take 1).map Prod.fst ++ p.2))
        else
          match finish_request B body ser bs api_key with
          | .error e => .error e
          | .ok request =>
              (buildLoop B cap api_key rem).map (fun p => (request :: p.1, p.2))
termination_by q.length
decreasing_by
all_goals try simp_wf
all_goals
  have key : ∀ (rest : List (Event × Nat)), ∀ buf first bs0 ser0 ser' buf' bs' rem',
      swcGo cap rest buf first bs0 ser0 = .ok (ser', buf', bs', rem') →
      rem'.length + ser'.length = rest.length + ser0.length := by
    intro rest
    induction rest with
    | nil =>
        intro buf first bs0 ser0 ser' buf' bs' rem' hw
        simp only [swcGo, Except.ok.injEq, Prod.mk.injEq] at hw
        obtain ⟨hw1, _, _, hw4⟩ := hw
        simp [← hw1, ← hw4]
    | cons pp rest ih =>
        intro buf first bs0 ser0 ser' buf' bs' rem' hw
        obtain ⟨event, est⟩ := pp
        simp only [swcGo] at hw
        cases hjw : event.json with
        | error e => rw [hjw] at hw; exact absurd hw (by simp)
        | ok ejson =>
            rw [hjw] at hw
            simp only at hw
            split at hw
            · split at hw
              · simp only [Except.ok.injEq, Prod.mk.injEq] at hw
                obtain ⟨hw1, _, _, hw4⟩ := hw
                simp [← hw1, ← hw4]
              · have := ih _ _ _ _ _ _ _ _ hw
                simp only [List.length_append, List.length_cons, List.length_nil]
                  at this ⊢
                omega
            · split at hw
              · simp only [Except.ok.injEq, Prod.mk.injEq] at hw
                obtain ⟨hw1, _, _, hw4⟩ := hw
                simp [← hw1, ← hw4]
              · have := ih _ _ _ _ _ _ _ _ hw
                simp only [List.length_append, List.length_cons, List.length_nil]
                  at this ⊢
                omega
all_goals
  have hs' : swcGo cap q [lbrack] true create_request_count_byte_size [] =
      .ok (ser, body, bs, rem) := hs
all_goals
  have hlen := key q _ _ _ _ _ _ _ _ hs'
all_goals
  try simp only [List.length_nil, Nat.add_zero] at hlen
all_goals
  have hqpos : 0 < q.length := List.length_pos.mpr hq
· subst hser
  try simp only [List.length_nil, Nat.add_zero] at hlen
  try simp only [List.length_drop]
  omega
· have hserpos : 0 < ser.length := List.length_pos.mpr hser
  omega

/-- build_request (sink.rs lines 251-290): transform each event, pair it
with its estimated JSON size, then run the serialization loop.  The
drops component of the result records the events discarded as oversize,
one drop telemetry signal each. -/
def build_request (B : LogRequestBuilder) (cap : Nat) (events : List Event)
    (api_key : String) :
    Except RequestBuildError (List LogApiRequest × List Event) :=
  let events_with_estimated_size : List (Event × Nat) :=
    events.map fun event =>
      let e := B.transform event
      (e, e.estimate)
  buildLoop B cap api_key events_with_estimated_size

/-- EventPartitioner::partition (sink.rs lines 28-30): the event's
attached Datadog API key, if any. -/
def partition (item : Event) : Option String :=
  item.apiKey

/-- The key resolution of run_inner (sink.rs line 399): the partition key
if present, otherwise the configured default API key. -/
def run_inner_resolve_key (default_api_key : String) (api_key : Option String) :
    String :=
  api_key.getD default_api_key

/-- Whether a build_request result is the PayloadTooBig error kind. -/
def is_payload_too_big_error :
    Except RequestBuildError (List LogApiRequest × List Event) → Bool
  | .error (RequestBuildError.PayloadTooBig _) => true
  | _ => false

/-- Whether a build_request result is an error of the Io kind. -/
def error_kind_io :
    Except RequestBuildError (List LogApiRequest × List Event) → Bool
  | .error (RequestBuildError.Io _) => true
  | _ => false

/-- Whether a build_request result is an error of the Json kind. -/
def error_kind_json :
    Except RequestBuildError (List LogApiRequest × List Event) → Bool
  | .error (RequestBuildError.Json _) => true
  | _ => false

/-- Sample event: a two-byte encoding with a matching estimate. -/
def evA : Event :=
  { id := 0, apiKey := none, json := .ok [97, 98], estimate := 2 }

/-- Sample event: a two-byte encoding whose estimate of fifty bytes is
far from the measured length. -/
def evB : Event :=
  { id := 1, apiKey := none, json := .ok [97, 98], estimate := 50 }

/-- Sample event: a four-byte encoding, oversize for a three-byte cap. -/
def evBig : Event :=
  { id := 2, apiKey := none, json := .ok [97, 98, 99, 100], estimate := 4 }

/-- Sample event whose serialization fails. -/
def evErr : Event :=
  { id := 3, apiKey := none, json := .error 7, estimate := 1 }

/-- Sample events with forty-byte encodings for the concrete scenario. -/
def e40a : Event :=
  { id := 4, apiKey := none, json := .ok (List.replicate 40 97), estimate := 40 }

/-- Second forty-byte event. -/
def e40b : Event :=
  { id := 5, apiKey := none, json := .ok (List.replicate 40 98), estimate := 40 }

/-- Third forty-byte event. -/
def e40c : Event :=
  { id := 6, apiKey := none, json := .ok (List.replicate 40 99), estimate := 40 }

/-- Sample event carrying an API key. -/
def evKeyed : Event :=
  { id := 7, apiKey := some "A", json := .ok [97], estimate := 1 }

/-- Sample builder: identity transform, identity codec. -/
def B1 : LogRequestBuilder :=
  { default_api_key := "default", transform := fun e => e,
    compress := fun l => .ok l, is_compressed := false }

/-- Sample builder whose codec always fails with io error five. -/
def Bio : LogRequestBuilder :=
  { default_api_key := "default", transform := fun e => e,
    compress := fun _ => .error 5, is_compressed := false }

/-- The request built from evA by B1 under a cap of one hundred. -/
def reqA : LogApiRequest :=
  { api_key := "k", events := [evA], compression := false,
    uncompressed_size := 4, byte_size := { count := 1, bytes := 2 },
    body := [91, 97, 98, 93] }

/-- The emitted container of the concrete three-event scenario. -/
def buf83 : List Nat :=
  91 :: (List.replicate 40 97 ++ 44 :: (List.replicate 40 98 ++ [93]))

/-- Decomposition of a successful serialization pass: the committed pairs
are an initial segment of the queue, the serialized events are their
event components in order, and the accumulator is add_event folded over
them. -/
theorem swcGo_decomp (cap : Nat) (rest : List (Event × Nat)) :
    ∀ buf first bs ser ser' buf' bs' rem,
    swcGo cap rest buf first bs ser = .ok (ser', buf', bs', rem) →
    ∃ comm, rest = comm ++ rem ∧ ser' = ser ++ comm.map Prod.fst ∧
      bs' = addCommitted bs comm := by
  induction rest with
  | nil =>
      intro buf first bs ser ser' buf' bs' rem h
      simp only [swcGo, Except.ok.injEq, Prod.mk.injEq] at h
      obtain ⟨h1, _, h3, h4⟩ := h
      subst h1; subst h3
      exact ⟨[], by simp [← h4], by simp, by simp [addCommitted]⟩
  | cons p rest ih =>
      intro buf first bs ser ser' buf' bs' rem h
      obtain ⟨event, est⟩ := p
      simp only [swcGo] at h
      cases hj : event.json with
      | error e => rw [hj] at h; exact absurd h (by simp)
      | ok ejson =>
          rw [hj] at h
          simp only at h
          split at h
          · split at h
            · simp only [Except.ok.injEq, Prod.mk.injEq] at h
              obtain ⟨h1, _, h3, h4⟩ := h
              subst h1; subst h3
              exact ⟨[], by simp [← h4], by simp, by simp [addCommitted]⟩
            · obtain ⟨comm, hc1, hc2, hc3⟩ := ih _ _ _ _ _ _ _ _ h
              exact ⟨(event, est) :: comm, by simp [hc1], by simp [hc2],
                by simp [hc3, addCommitted]⟩
          · split at h
            · simp only [Except.ok.injEq, Prod.mk.injEq] at h
              obtain ⟨h1, _, h3, h4⟩ := h
              subst h1; subst h3
              exact ⟨[], by simp [← h4], by simp, by simp [addCommitted]⟩
            · obtain ⟨comm, hc1, hc2, hc3⟩ := ih _ _ _ _ _ _ _ _ h
              exact ⟨(event, est) :: comm, by simp [hc1], by simp [hc2],
                by simp [hc3, addCommitted]⟩

/-- Decomposition at the top level. -/
theorem serialize_with_capacity_decomp (cap : Nat) (q : List (Event × Nat))
    (ser : List Event) (buf : List Nat) (bs : GroupedCountByteSize)
    (rem : List (Event × Nat))
    (h : serialize_with_capacity cap q = .ok (ser, buf, bs, rem)) :
    ∃ comm, q = comm ++ rem ∧ ser = comm.map Prod.fst ∧
      bs = addCommitted create_request_count_byte_size comm := by
  obtain ⟨comm, h1, h2, h3⟩ := swcGo_decomp cap q _ _ _ _ _ _ _ _ h
  exact ⟨comm, h1, by simpa using h2, h3⟩

/-- Taking back exactly the first list of an append recovers it. -/
theorem take_len_append {α : Type} (l₁ l₂ : List α) :
    (l₁ ++ l₂).take l₁.length = l₁ := by
  induction l₁ with
  | nil => simp
  | cons a t ih => simp [ih]

/-- Appending one more serialization to a nonempty joined form inserts a
comma before it. -/
theorem joinComma_snoc_cons (a : List Nat) (t : List (List Nat)) (j : List Nat) :
    joinComma ((a :: t) ++ [j]) = joinComma (a :: t) ++ comma :: j := by
  show (t ++ [j]).foldl (fun acc x => acc ++ comma :: x) a = _
  rw [List.foldl_append]
  rfl

/-- The buffer grown from a nonempty rendering by a comma and one more
serialization is the rendering of the extended list. -/
theorem renderOpen_snoc_cons (a : List Nat) (t : List (List Nat)) (j : List Nat) :
    (renderOpen (a :: t) ++ [comma]) ++ j = renderOpen ((a :: t) ++ [j]) := by
  simp only [renderOpen]
  rw [joinComma_snoc_cons]
  simp

/-- The loop of serialize_with_capacity, started on a buffer holding the
rendering of previously committed serializations, computes exactly the
specification-level greedy pass: same committed events in order, the
buffer is the closed rendering of their serializations, the accumulator
is add_event folded over the committed pairs, and the remaining queue is
what the greedy pass leaves. -/
theorem swcGo_eq_greedy (cap : Nat) (rest : List (Event × Nat)) :
    ∀ jsons bs ser, (∀ p ∈ rest, (Prod.fst p).jsonOk = true) →
    swcGo cap rest (renderOpen jsons) jsons.isEmpty bs ser =
      .ok (ser ++ (greedySpec cap jsons rest).1.map Prod.fst,
           renderClose (jsons ++ (greedySpec cap jsons rest).1.map
             fun p => (Prod.fst p).jsonBytes),
           addCommitted bs (greedySpec cap jsons rest).1,
           (greedySpec cap jsons rest).2) := by
  induction rest with
  | nil =>
      intro jsons bs ser _
      simp [swcGo, greedySpec, renderClose, addCommitted]
  | cons p rest ih =>
      intro jsons bs ser hok
      obtain ⟨event, est⟩ := p
      have hevok : event.jsonOk = true := hok (event, est) (by simp)
      obtain ⟨j, hj⟩ : ∃ j, event.json = .ok j := by
        unfold Event.jsonOk at hevok
        cases hjj : event.json with
        | ok j => exact ⟨j, rfl⟩
        | error e => rw [hjj] at hevok; simp at hevok
      have hjb : event.jsonBytes = j := by simp [Event.jsonBytes, hj]
      have hrest : ∀ p ∈ rest, (Prod.fst p).jsonOk = true :=
        fun p hp => hok p (List.mem_cons_of_mem _ hp)
      cases jsons with
      | nil =>
          have hb : renderOpen ([] : List (List Nat)) ++ j = renderOpen [j] := rfl
          have hrec := ih [j] (bs.add_event event est) (ser ++ [event]) hrest
          simp only [List.isEmpty_cons] at hrec
          simp only [swcGo, hj, greedySpec, hjb, List.isEmpty_nil, List.nil_append,
            if_true]
          rw [hb]
          split
          · simp [renderOpen, renderClose, joinComma, addCommitted]
          · rw [hrec]
            simp [renderClose, addCommitted, hjb]
      | cons a t =>
          have hb : (renderOpen (a :: t) ++ [comma]) ++ j =
              renderOpen ((a :: t) ++ [j]) := renderOpen_snoc_cons a t j
          have hrec := ih ((a :: t) ++ [j]) (bs.add_event event est) (ser ++ [event])
            hrest
          simp only [List.cons_append, List.isEmpty_cons] at hrec
          simp only [swcGo, hj, greedySpec, hjb, List.isEmpty_cons]
          rw [if_neg (show ¬((false : Bool) = true) from by simp)]
          rw [show ((renderOpen (a :: t) ++ [comma]) ++ j).length =
            (renderOpen ((a :: t) ++ [j])).length from by rw [hb]]
          split
          · rw [List.append_assoc, take_len_append]
            simp [renderClose, addCommitted]
          · rw [hb]
            exact hrec.trans (by simp [renderClose, addCommitted, hjb])

/-- Cap invariant of the loop: if the buffer is strictly below the cap
whenever something has been committed, then any successful result that
committed at least one event has a final buffer (closing bracket
included) of at most cap bytes. -/
theorem swcGo_cap_le (cap : Nat) (rest : List (Event × Nat)) :
    ∀ buf first bs ser ser' buf' bs' rem,
    swcGo cap rest buf first bs ser = .ok (ser', buf', bs', rem) →
    (ser ≠ [] → buf.length < cap) → ser' ≠ [] → buf'.length ≤ cap := by
  induction rest with
  | nil =>
      intro buf first bs ser ser' buf' bs' rem h hinv hne
      simp only [swcGo, Except.ok.injEq, Prod.mk.injEq] at h
      obtain ⟨h1, h2, _, _⟩ := h
      subst h1; subst h2
      have hlt := hinv hne
      simp only [List.length_append, List.length_cons, List.length_nil]
      omega
  | cons p rest ih =>
      intro buf first bs ser ser' buf' bs' rem h hinv hne
      obtain ⟨event, est⟩ := p
      simp only [swcGo] at h
      cases hj : event.json with
      | error e => rw [hj] at h; exact absurd h (by simp)
      | ok ejson =>
          rw [hj] at h
          simp only at h
          split at h
          · split at h
            · simp only [Except.ok.injEq, Prod.mk.injEq] at h
              obtain ⟨h1, h2, _, _⟩ := h
              subst h1; subst h2
              have hlt := hinv hne
              simp only [List.length_append, List.length_take, List.length_cons,
                List.length_nil]
              omega
            · exact ih _ _ _ _ _ _ _ _ h
                (fun _ => Nat.lt_of_not_le (by assumption)) hne
          · split at h
            · simp only [Except.ok.injEq, Prod.mk.injEq] at h
              obtain ⟨h1, h2, _, _⟩ := h
              subst h1; subst h2
              have hlt := hinv hne
              simp only [List.length_append, List.length_take, List.length_cons,
                List.length_nil]
              omega
            · exact ih _ _ _ _ _ _ _ _ h
                (fun _ => Nat.lt_of_not_le (by assumption)) hne

/-- The loop exits immediately on an empty queue. -/
theorem buildLoop_nil (B : LogRequestBuilder) (cap : Nat) (api_key : String) :
    buildLoop B cap api_key [] = .ok ([], []) := by
  rw [buildLoop]
  rfl

/-- A serializer error (an io error carrying the converted serde_json
failure) aborts the call with the Io error kind. -/
theorem buildLoop_step_err (B : LogRequestBuilder) (cap : Nat) (api_key : String)
    (x : List (Event × Nat)) (e : Nat) (hx : x ≠ [])
    (hs : serialize_with_capacity cap x = .error e) :
    buildLoop B cap api_key x = .error (RequestBuildError.Io e) := by
  rw [buildLoop, dif_neg hx]
  split
  · next e' heq => rw [hs] at heq; injection heq with h; rw [h]
  · next ser' body' bs' rem' heq => rw [hs] at heq; exact absurd heq (by simp)

/-- A zero-progress pass pops the head of the queue, emits one drop, and
continues on the rest. -/
theorem buildLoop_step_drop (B : LogRequestBuilder) (cap : Nat) (api_key : String)
    (x : List (Event × Nat)) (body : List Nat) (bs : GroupedCountByteSize)
    (rem : List (Event × Nat)) (hx : x ≠ [])
    (hs : serialize_with_capacity cap x = .ok ([], body, bs, rem)) :
    buildLoop B cap api_key x =
      (buildLoop B cap api_key (rem.drop 1)).map
        (fun p => (p.1, (rem.take 1).map Prod.fst ++ p.2)) := by
  rw [buildLoop, dif_neg hx]
  split
  · next e' heq => rw [hs] at heq; exact absurd heq (by simp)
  · next ser' body' bs' rem' heq =>
      rw [hs] at heq
      obtain ⟨h1, h2, h3, h4⟩ := by simpa using heq
      subst h2; subst h3; subst h4
      rw [dif_pos h1]

/-- A pass that committed events finishes a request from the returned
buffer and continues on the mutated queue. -/
theorem buildLoop_step_req (B : LogRequestBuilder) (cap : Nat) (api_key : String)
    (x : List (Event × Nat)) (ser : List Event) (body : List Nat)
    (bs : GroupedCountByteSize) (rem : List (Event × Nat)) (hx : x ≠ [])
    (hs : serialize_with_capacity cap x = .ok (ser, body, bs, rem))
    (hser : ser ≠ []) :
    buildLoop B cap api_key x =
      match finish_request B body ser bs api_key with
      | .error e => .error e
      | .ok request =>
          (buildLoop B cap api_key rem).map (fun p => (request :: p.1, p.2)) := by
  rw [buildLoop, dif_neg hx]
  split
  · next e' heq => rw [hs] at heq; exact absurd heq (by simp)
  · next ser' body' bs' rem' heq =>
      rw [hs] at heq
      obtain ⟨h1, h2, h3, h4⟩ := by simpa using heq
      subst h1; subst h2; subst h3; subst h4
      rw [dif_neg hser]

/-- A finished request carries exactly the consumed events, the supplied
key, the uncompressed buffer length and the byte-size accumulator. -/
theorem finish_request_ok (B : LogRequestBuilder) (buf : List Nat)
    (events : List Event) (byte_size : GroupedCountByteSize) (api_key : String)
    (r : LogApiRequest)
    (h : finish_request B buf events byte_size api_key = .ok r) :
    r.events = events ∧ r.api_key = api_key ∧
      r.uncompressed_size = buf.length ∧ r.byte_size = byte_size := by
  unfold finish_request at h
  cases hc : B.compress buf with
  | error e => rw [hc] at h; exact absurd h (by simp)
  | ok bytes =>
      rw [hc] at h
      simp only [Except.ok.injEq] at h
      subst h
      simp

/-- finish_request fails only with the Io error kind. -/
theorem finish_request_error (B : LogRequestBuilder) (buf : List Nat)
    (events : List Event) (byte_size : GroupedCountByteSize) (api_key : String)
    (e : RequestBuildError)
    (h : finish_request B buf events byte_size api_key = .error e) :
    ∃ n, e = RequestBuildError.Io n := by
  unfold finish_request at h
  cases hc : B.compress buf with
  | error n =>
      rw [hc] at h
      simp only [Except.error.injEq] at h
      exact ⟨n, h.symm⟩
  | ok bytes => rw [hc] at h; exact absurd h (by simp)

/-- Conservation through the loop: events in finished requests plus
dropped events account exactly for the whole queue. -/
theorem buildLoop_conservation (B : LogRequestBuilder) (cap : Nat)
    (api_key : String) (q : List (Event × Nat)) :
    ∀ reqs drops, buildLoop B cap api_key q = .ok (reqs, drops) →
    (reqs.map fun r => r.events.length).sum + drops.length = q.length := by
  induction q using buildLoop.induct B cap api_key with
  | case1 =>
      intro reqs drops h
      rw [buildLoop_nil] at h
      obtain ⟨h1, h2⟩ := by simpa using h
      subst h1; subst h2
      simp
  | case2 x hx e hs =>
      intro reqs drops h
      rw [buildLoop_step_err B cap api_key x e hx hs] at h
      exact absurd h (by simp)
  | case3 x hx body bs rem hs ih =>
      intro reqs drops h
      rw [buildLoop_step_drop B cap api_key x body bs rem hx hs] at h
      cases hrec : buildLoop B cap api_key (rem.drop 1) with
      | error e => rw [hrec] at h; simp [Except.map] at h
      | ok p =>
          rw [hrec] at h
          have h' : Except.ok (ε := RequestBuildError)
              (p.1, (rem.take 1).map Prod.fst ++ p.2) = .ok (reqs, drops) := h
          rw [Except.ok.injEq, Prod.mk.injEq] at h'
          obtain ⟨h1, h2⟩ := h'
          obtain ⟨comm, hc1, hc2, _⟩ :=
            serialize_with_capacity_decomp cap x [] body bs rem hs
          have hcomm : comm = [] := by
            cases comm with
            | nil => rfl
            | cons a b => simp at hc2
          subst hcomm
          simp only [List.nil_append] at hc1
          subst hc1
          have hlen := ih p.1 p.2 hrec
          have hxpos : 0 < x.length := List.length_pos.mpr hx
          have htake : (x.take 1).length = 1 := by
            cases x with
            | nil => exact absurd rfl hx
            | cons a b => simp
          subst h1
          rw [← h2]
          simp only [List.length_append, List.length_map, htake,
            List.length_drop] at *
          omega
  | case4 x hx ser body bs rem hs hser e hfin =>
      intro reqs drops h
      rw [buildLoop_step_req B cap api_key x ser body bs rem hx hs hser] at h
      rw [hfin] at h
      exact absurd h (by simp)
  | case5 x hx ser body bs rem hs hser request hfin ih =>
      intro reqs drops h
      rw [buildLoop_step_req B cap api_key x ser body bs rem hx hs hser] at h
      rw [hfin] at h
      simp only at h
      cases hrec : buildLoop B cap api_key rem with
      | error e => rw [hrec] at h; simp [Except.map] at h
      | ok p =>
          rw [hrec] at h
          have h' : Except.ok (ε := RequestBuildError)
              (request :: p.1, p.2) = .ok (reqs, drops) := h
          rw [Except.ok.injEq, Prod.mk.injEq] at h'
          obtain ⟨h1, h2⟩ := h'
          obtain ⟨comm, hc1, hc2, _⟩ :=
            serialize_with_capacity_decomp cap x ser body bs rem hs
          have hev := (finish_request_ok B body ser bs api_key request hfin).1
          have hlen := ih p.1 p.2 hrec
          subst h1; subst h2
          subst hc1
          simp only [List.map_cons, List.sum_cons, hev, hc2, List.length_map,
            List.length_append]
          omega

/-- Order preservation through the loop: with no drops, the events of
the finished requests, concatenated in order, are exactly the event
components of the queue in admission order. -/
theorem buildLoop_order (B : LogRequestBuilder) (cap : Nat)
    (api_key : String) (q : List (Event × Nat)) :
    ∀ reqs, buildLoop B cap api_key q = .ok (reqs, []) →
    (reqs.map fun r => r.events).flatten = q.map Prod.fst := by
  induction q using buildLoop.induct B cap api_key with
  | case1 =>
      intro reqs h
      rw [buildLoop_nil] at h
      have h' : reqs = [] := by simpa using h.symm
      subst h'
      simp
  | case2 x hx e hs =>
      intro reqs h
      rw [buildLoop_step_err B cap api_key x e hx hs] at h
      exact absurd h (by simp)
  | case3 x hx body bs rem hs ih =>
      intro reqs h
      rw [buildLoop_step_drop B cap api_key x body bs rem hx hs] at h
      cases hrec : buildLoop B cap api_key (rem.drop 1) with
      | error e => rw [hrec] at h; simp [Except.map] at h
      | ok p =>
          rw [hrec] at h
          have h' : Except.ok (ε := RequestBuildError)
              (p.1, (rem.take 1).map Prod.fst ++ p.2) = .ok (reqs, []) := h
          rw [Except.ok.injEq, Prod.mk.injEq] at h'
          obtain ⟨h1, h2⟩ := h'
          obtain ⟨comm, hc1, hc2, _⟩ :=
            serialize_with_capacity_decomp cap x [] body bs rem hs
          have hcomm : comm = [] := by
            cases comm with
            | nil => rfl
            | cons a b => simp at hc2
          subst hcomm
          simp only [List.nil_append] at hc1
          subst hc1
          have htake : (x.take 1).map Prod.fst ≠ [] := by
            cases x with
            | nil => exact absurd rfl hx
            | cons a b => simp
          exact absurd (List.append_eq_nil.mp h2).1 htake
  | case4 x hx ser body bs rem hs hser e hfin =>
      intro reqs h
      rw [buildLoop_step_req B cap api_key x ser body bs rem hx hs hser] at h
      rw [hfin] at h
      exact absurd h (by simp)
  | case5 x hx ser body bs rem hs hser request hfin ih =>
      intro reqs h
      rw [buildLoop_step_req B cap api_key x ser body bs rem hx hs hser] at h
      rw [hfin] at h
      simp only at h
      cases hrec : buildLoop B cap api_key rem with
      | error e => rw [hrec] at h; simp [Except.map] at h
      | ok p =>
          rw [hrec] at h
          have h' : Except.ok (ε := RequestBuildError)
              (request :: p.1, p.2) = .ok (reqs, []) := h
          rw [Except.ok.injEq, Prod.mk.injEq] at h'
          obtain ⟨h1, h2⟩ := h'
          obtain ⟨comm, hc1, hc2, _⟩ :=
            serialize_with_capacity_decomp cap x ser body bs rem hs
          have hev := (finish_request_ok B body ser bs api_key request hfin).1
          have hord := ih p.1 (by rw [hrec, ← h2])
          subst h1
          subst hc1
          simp [hev, hc2, hord]

/-- Every error the loop returns is of the Io kind. -/
theorem buildLoop_error_kind (B : LogRequestBuilder) (cap : Nat)
    (api_key : String) (q : List (Event × Nat)) :
    ∀ err, buildLoop B cap api_key q = .error err →
    ∃ n, err = RequestBuildError.Io n := by
  induction q using buildLoop.induct B cap api_key with
  | case1 =>
      intro err h
      rw [buildLoop_nil] at h
      exact absurd h (by simp)
  | case2 x hx e hs =>
      intro err h
      rw [buildLoop_step_err B cap api_key x e hx hs] at h
      have h' : RequestBuildError.Io e = err := by simpa using h
      exact ⟨e, h'.symm⟩
  | case3 x hx body bs rem hs ih =>
      intro err h
      rw [buildLoop_step_drop B cap api_key x body bs rem hx hs] at h
      cases hrec : buildLoop B cap api_key (rem.drop 1) with
      | error e =>
          rw [hrec] at h
          have h' : Except.error (α := List LogApiRequest × List Event) e =
              .error err := h
          rw [Except.error.injEq] at h'
          subst h'
          exact ih e hrec
      | ok p => rw [hrec] at h; simp [Except.map] at h
  | case4 x hx ser body bs rem hs hser e hfin =>
      intro err h
      rw [buildLoop_step_req B cap api_key x ser body bs rem hx hs hser] at h
      rw [hfin] at h
      have herr : e = err := by simpa using h
      subst herr
      exact finish_request_error B body ser bs api_key e hfin
  | case5 x hx ser body bs rem hs hser request hfin ih =>
      intro err h
      rw [buildLoop_step_req B cap api_key x ser body bs rem hx hs hser] at h
      rw [hfin] at h
      simp only at h
      cases hrec : buildLoop B cap api_key rem with
      | error e =>
          rw [hrec] at h
          have h' : Except.error (α := List LogApiRequest × List Event) e =
              .error err := h
          rw [Except.error.injEq] at h'
          subst h'
          exact ih e hrec
      | ok p => rw [hrec] at h; simp [Except.map] at h

/-- Closed form of the accumulator fold: count of committed events and
sum of their estimated sizes. -/
theorem addCommitted_eval (comm : List (Event × Nat)) :
    ∀ bs, addCommitted bs comm =
      { count := bs.count + comm.length,
        bytes := bs.bytes + (comm.map Prod.snd).sum } := by
  induction comm with
  | nil => intro bs; simp [addCommitted]
  | cons p t ih =>
      intro bs
      have h := ih (bs.add_event p.1 p.2)
      simp only [addCommitted, List.foldl_cons] at h ⊢
      rw [h]
      simp only [GroupedCountByteSize.add_event, List.map_cons, List.sum_cons,
        List.length_cons, GroupedCountByteSize.mk.injEq]
      constructor <;> omega

/-- If the head event fails to serialize, the pass fails with that
error. -/
theorem serialize_error_head (cap : Nat) (e : Event) (est : Nat)
    (rest : List (Event × Nat)) (n : Nat) (hj : e.json = .error n) :
    serialize_with_capacity cap ((e, est) :: rest) = .error n := by
  simp [serialize_with_capacity, swcGo, hj]

/-- The loop never produces the PayloadTooBig error kind. -/
theorem buildLoop_not_payload_too_big (B : LogRequestBuilder) (cap : Nat)
    (api_key : String) (q : List (Event × Nat)) :
    is_payload_too_big_error (buildLoop B cap api_key q) = false := by
  cases hr : buildLoop B cap api_key q with
  | ok p => rfl
  | error err =>
      obtain ⟨n, rfl⟩ := buildLoop_error_kind B cap api_key q err hr
      rfl

/-- Claim C1: serialize_with_capacity commits events in a single
left-to-right greedy pass: each event in front-to-back order is
serialized into the buffer; if the buffer length would meet or exceed
the hard cap the buffer is truncated back to its length before this
event (separating comma included), the event is pushed back to the front
of the remaining queue and the pass stops; otherwise the event moves
into the serialized-events output and the pass continues, with no
re-ordering, look-ahead or repacking.  Stated as equality with the
specification-level greedy pass greedySpec. -/
theorem serialize_with_capacity_greedy_single_pass (cap : Nat)
    (q : List (Event × Nat)) (hok : ∀ p ∈ q, (Prod.fst p).jsonOk = true) :
    serialize_with_capacity cap q =
      .ok ((greedySpec cap [] q).1.map Prod.fst,
           renderClose ((greedySpec cap [] q).1.map fun p => (Prod.fst p).jsonBytes),
           addCommitted create_request_count_byte_size (greedySpec cap [] q).1,
           (greedySpec cap [] q).2) := by
  have h := swcGo_eq_greedy cap q [] create_request_count_byte_size [] hok
  simpa using h

/-- Witness for claim C1 at a concrete one-event queue. -/
theorem serialize_with_capacity_greedy_single_pass_witness :
    serialize_with_capacity 100 [(evA, 2)] =
      .ok ((greedySpec 100 [] [(evA, 2)]).1.map Prod.fst,
           renderClose ((greedySpec 100 [] [(evA, 2)]).1.map
             fun p => (Prod.fst p).jsonBytes),
           addCommitted create_request_count_byte_size (greedySpec 100 [] [(evA, 2)]).1,
           (greedySpec 100 [] [(evA, 2)]).2) :=
  serialize_with_capacity_greedy_single_pass 100 [(evA, 2)]
    (by intro p hp; simp only [List.mem_singleton] at hp; subst hp; rfl)

/-- Claim C2, amended: the emitted container of a pass that committed at
least one event is at most the configured maximum payload size, closing
bracket included (the buffer before the closing bracket is strictly
below the cap; appending the bracket can reach the cap exactly). -/
theorem serialize_cap_at_most (cap : Nat) (q : List (Event × Nat))
    (ser : List Event) (buf : List Nat) (bs : GroupedCountByteSize)
    (rem : List (Event × Nat))
    (h : serialize_with_capacity cap q = .ok (ser, buf, bs, rem))
    (hne : ser ≠ []) : buf.length ≤ cap :=
  swcGo_cap_le cap q [lbrack] true create_request_count_byte_size [] ser buf bs rem
    h (fun hx => absurd rfl hx) hne

/-- Witness for the amended claim C2. -/
theorem serialize_cap_at_most_witness : ([91, 97, 98, 93] : List Nat).length ≤ 100 :=
  serialize_cap_at_most 100 [(evA, 2)] [evA] [91, 97, 98, 93]
    { count := 1, bytes := 2 } [] rfl (by simp)

/-- Counterexample to claim C2 as stated: with a cap of four bytes, a
two-byte event commits (the buffer is three bytes, strictly below the
cap, when checked), and the closing bracket brings the emitted container
to exactly four bytes, which is not strictly less than the cap. -/
theorem serialize_cap_strict_counterexample :
    serialize_with_capacity 4 [(evA, 2)] =
      .ok ([evA], [91, 97, 98, 93], { count := 1, bytes := 2 }, []) ∧
    ¬ ([91, 97, 98, 93] : List Nat).length < 4 :=
  ⟨rfl, by decide⟩

/-- Claim C3: for every input list on which build_request succeeds, the
total event count across the returned requests plus the count of events
dropped as oversize equals the input count. -/
theorem build_request_conservation (B : LogRequestBuilder) (cap : Nat)
    (events : List Event) (api_key : String) (reqs : List LogApiRequest)
    (drops : List Event)
    (h : build_request B cap events api_key = .ok (reqs, drops)) :
    (reqs.map fun r => r.events.length).sum + drops.length = events.length := by
  have hq : buildLoop B cap api_key (events.map fun event =>
      (B.transform event, (B.transform event).estimate)) = .ok (reqs, drops) := h
  have hc := buildLoop_conservation B cap api_key _ reqs drops hq
  simpa using hc

/-- Witness for claim C3 at a concrete one-event run. -/
theorem build_request_conservation_witness :
    (([reqA].map fun r => r.events.length).sum + ([] : List Event).length =
      ([evA] : List Event).length) :=
  build_request_conservation B1 100 [evA] "k" [reqA] [] (by
    show buildLoop B1 100 "k" [(evA, 2)] = .ok ([reqA], [])
    rw [buildLoop_step_req B1 100 "k" [(evA, 2)] [evA] [91, 97, 98, 93]
      { count := 1, bytes := 2 } [] (by simp) rfl (by simp)]
    rw [show finish_request B1 [91, 97, 98, 93] [evA] { count := 1, bytes := 2 } "k" =
      .ok reqA from rfl]
    rw [buildLoop_nil]
    rfl)

/-- Claim C4, amended: the byte-size accumulator returned with a pass
counts exactly the committed events, and its byte total is the sum of
their O(1) estimated JSON sizes as paired in the queue — not the
measured length of their encodings. -/
theorem serialize_byte_size_records_estimates (cap : Nat)
    (q : List (Event × Nat)) (ser : List Event) (buf : List Nat)
    (bs : GroupedCountByteSize) (rem : List (Event × Nat))
    (h : serialize_with_capacity cap q = .ok (ser, buf, bs, rem)) :
    ∃ comm, q = comm ++ rem ∧ ser = comm.map Prod.fst ∧
      bs.count = comm.length ∧ bs.bytes = (comm.map Prod.snd).sum := by
  obtain ⟨comm, h1, h2, h3⟩ :=
    serialize_with_capacity_decomp cap q ser buf bs rem h
  refine ⟨comm, h1, h2, ?_, ?_⟩ <;>
    rw [h3, addCommitted_eval] <;> simp [create_request_count_byte_size]

/-- Witness for the amended claim C4. -/
theorem serialize_byte_size_records_estimates_witness :
    ∃ comm, ([(evB, 50)] : List (Event × Nat)) = comm ++ [] ∧
      [evB] = comm.map Prod.fst ∧
      ({ count := 1, bytes := 50 } : GroupedCountByteSize).count = comm.length ∧
      ({ count := 1, bytes := 50 } : GroupedCountByteSize).bytes =
        (comm.map Prod.snd).sum :=
  serialize_byte_size_records_estimates 100 [(evB, 50)] [evB] [91, 97, 98, 93]
    { count := 1, bytes := 50 } [] rfl

/-- Counterexample to claim C4 as stated: an event whose encoding
measures two bytes but whose estimate is fifty is committed, and the
accumulator records fifty — the estimate, not the exact serialized
size. -/
theorem serialize_byte_size_exact_counterexample :
    serialize_with_capacity 100 [(evB, 50)] =
      .ok ([evB], [91, 97, 98, 93], { count := 1, bytes := 50 }, []) ∧
    evB.jsonBytes.length = 2 ∧ ¬ ((50 : Nat) = 2) :=
  ⟨rfl, rfl, by decide⟩

/-- Claim C5: the request-building loop is total (buildLoop is defined
by well-founded recursion on the queue length), and whenever a
serialization pass commits no events, exactly one event — the head of
the queue — is discarded with exactly one drop telemetry signal, and the
loop continues on the remaining queue unchanged otherwise. -/
theorem build_request_no_progress_drops_head (B : LogRequestBuilder) (cap : Nat)
    (api_key : String) (e : Event) (est : Nat) (rest : List (Event × Nat))
    (body : List Nat) (bs : GroupedCountByteSize) (rem : List (Event × Nat))
    (h : serialize_with_capacity cap ((e, est) :: rest) = .ok ([], body, bs, rem)) :
    buildLoop B cap api_key ((e, est) :: rest) =
      (buildLoop B cap api_key rest).map (fun p => (p.1, e :: p.2)) := by
  obtain ⟨comm, hc1, hc2, _⟩ :=
    serialize_with_capacity_decomp cap ((e, est) :: rest) [] body bs rem h
  have hcomm : comm = [] := by
    cases comm with
    | nil => rfl
    | cons a b => simp at hc2
  subst hcomm
  simp only [List.nil_append] at hc1
  rw [buildLoop_step_drop B cap api_key ((e, est) :: rest) body bs rem (by simp) h]
  rw [← hc1]
  rfl

/-- Witness for claim C5: a four-byte event against a three-byte cap. -/
theorem build_request_no_progress_drops_head_witness :
    buildLoop B1 3 "k" [(evBig, 4)] =
      (buildLoop B1 3 "k" []).map (fun p => (p.1, evBig :: p.2)) :=
  build_request_no_progress_drops_head B1 3 "k" evBig 4 [] [91, 93]
    { count := 0, bytes := 0 } [(evBig, 4)] rfl

/-- Claim C6: on a successful build_request call with no drops, the
concatenation of the serialized-events sequences across the returned
requests, in request order, is the input list in admission order (each
event as preprocessed by the transform step). -/
theorem build_request_order_preservation (B : LogRequestBuilder) (cap : Nat)
    (events : List Event) (api_key : String) (reqs : List LogApiRequest)
    (h : build_request B cap events api_key = .ok (reqs, [])) :
    (reqs.map fun r => r.events).flatten = events.map fun ev => B.transform ev := by
  have hq : buildLoop B cap api_key (events.map fun event =>
      (B.transform event, (B.transform event).estimate)) = .ok (reqs, []) := h
  have ho := buildLoop_order B cap api_key _ reqs hq
  simpa [List.map_map, Function.comp] using ho

/-- Witness for claim C6 at a concrete one-event run. -/
theorem build_request_order_preservation_witness :
    ([reqA].map fun r => r.events).flatten = [evA].map (fun ev => B1.transform ev) :=
  build_request_order_preservation B1 100 [evA] "k" [reqA] (by
    show buildLoop B1 100 "k" [(evA, 2)] = .ok ([reqA], [])
    rw [buildLoop_step_req B1 100 "k" [(evA, 2)] [evA] [91, 97, 98, 93]
      { count := 1, bytes := 2 } [] (by simp) rfl (by simp)]
    rw [show finish_request B1 [91, 97, 98, 93] [evA] { count := 1, bytes := 2 } "k" =
      .ok reqA from rfl]
    rw [buildLoop_nil]
    rfl)

/-- Claim C7, amended: a serialization-format failure and a codec/io
failure both abort construction for the remaining queue contents of the
call — build_request returns the error and produces no Wire Requests —
but they are reported as the same error kind of RequestBuildError:
serialize_with_capacity returns its serde_json failure as an io error
(sink.rs line 334), so both failures surface as the Io kind through the
From io::Error conversion at line 231, and the Json kind is unreachable
from build_request. -/
theorem request_build_error_io_kind_aborts :
    (∀ (B : LogRequestBuilder) (cap : Nat) (events : List Event)
        (api_key : String) (err : RequestBuildError) (reqs : List LogApiRequest)
        (drops : List Event),
        build_request B cap events api_key = .error err →
        build_request B cap events api_key ≠ .ok (reqs, drops)) ∧
    (∀ (B : LogRequestBuilder) (cap : Nat) (ev : Event) (rest : List Event)
        (api_key : String) (n : Nat), (B.transform ev).json = .error n →
        build_request B cap (ev :: rest) api_key =
          .error (RequestBuildError.Io n)) ∧
    (∀ (B : LogRequestBuilder) (cap : Nat) (ev : Event) (api_key : String)
        (body : List Nat) (bs : GroupedCountByteSize) (n : Nat),
        serialize_with_capacity cap [(B.transform ev, (B.transform ev).estimate)] =
          .ok ([B.transform ev], body, bs, []) →
        B.compress body = .error n →
        build_request B cap [ev] api_key = .error (RequestBuildError.Io n)) := by
  refine ⟨?_, ?_, ?_⟩
  · intro B cap events api_key err reqs drops h
    rw [h]
    simp
  · intro B cap ev rest api_key n hj
    show buildLoop B cap api_key ((ev :: rest).map fun event =>
      (B.transform event, (B.transform event).estimate)) =
      .error (RequestBuildError.Io n)
    exact buildLoop_step_err B cap api_key _ n (by simp)
      (serialize_error_head cap (B.transform ev) (B.transform ev).estimate
        (rest.map fun event => (B.transform event, (B.transform event).estimate))
        n hj)
  · intro B cap ev api_key body bs n hs hc
    show buildLoop B cap api_key [(B.transform ev, (B.transform ev).estimate)] =
      .error (RequestBuildError.Io n)
    rw [buildLoop_step_req B cap api_key [(B.transform ev, (B.transform ev).estimate)]
      [B.transform ev] body bs [] (by simp) hs (by simp)]
    have hfin : finish_request B body [B.transform ev] bs api_key =
        .error (RequestBuildError.Io n) := by
      unfold finish_request
      rw [hc]
    rw [hfin]

/-- Witness for the amended claim C7: a failing serialization and a
failing codec both abort the call with the Io kind. -/
theorem request_build_error_io_kind_aborts_witness :
    build_request B1 100 [evErr] "k" = .error (RequestBuildError.Io 7) ∧
    build_request Bio 100 [evA] "k" = .error (RequestBuildError.Io 5) :=
  ⟨request_build_error_io_kind_aborts.2.1 B1 100 evErr [] "k" 7 rfl,
   request_build_error_io_kind_aborts.2.2 Bio 100 evA "k"
     [91, 97, 98, 93] { count := 1, bytes := 2 } 5 rfl rfl⟩

/-- Counterexample to claim C7 as stated: the serialization-format
failure of a concrete event is reported by build_request as the Io kind
— not the Json kind — which is the same kind a codec failure is reported
as, so the two failures are not reported as distinct error kinds. -/
theorem request_build_error_same_kind_counterexample :
    error_kind_json (build_request B1 100 [evErr] "k") = false ∧
    error_kind_io (build_request B1 100 [evErr] "k") = true ∧
    error_kind_io (build_request Bio 100 [evA] "k") = true := by
  have h1 : build_request B1 100 [evErr] "k" =
      .error (RequestBuildError.Io 7) :=
    buildLoop_step_err B1 100 "k" [(evErr, 1)] 7 (by simp) rfl
  have h2 : build_request Bio 100 [evA] "k" =
      .error (RequestBuildError.Io 5) := by
    show buildLoop Bio 100 "k" [(evA, 2)] = .error (RequestBuildError.Io 5)
    rw [buildLoop_step_req Bio 100 "k" [(evA, 2)] [evA] [91, 97, 98, 93]
      { count := 1, bytes := 2 } [] (by simp) rfl (by simp)]
    rw [show finish_request Bio [91, 97, 98, 93] [evA] { count := 1, bytes := 2 } "k" =
      .error (RequestBuildError.Io 5) from rfl]
  exact ⟨by rw [h1]; rfl, by rw [h1]; rfl, by rw [h2]; rfl⟩

set_option maxRecDepth 8000 in
/-- Claim C8, amended: with a cap of one hundred bytes and three events
of forty serialized bytes each, one pass commits exactly the first two
events into one container of eighty-three bytes — opening bracket, forty
bytes, comma, forty bytes, closing bracket — and leaves the third event
at the head of the remaining queue. -/
theorem serialize_concrete_scenario_83_bytes :
    serialize_with_capacity 100 [(e40a, 40), (e40b, 40), (e40c, 40)] =
      .ok ([e40a, e40b], buf83, { count := 2, bytes := 80 }, [(e40c, 40)]) ∧
    buf83.length = 83 :=
  ⟨rfl, by simp [buf83]⟩

set_option maxRecDepth 8000 in
/-- Counterexample to claim C8 as stated: the emitted container of the
scenario is eighty-three bytes (forty plus forty payload bytes, one
comma and two brackets), not eighty-two. -/
theorem serialize_concrete_scenario_82_bytes_counterexample :
    serialize_with_capacity 100 [(e40a, 40), (e40b, 40), (e40c, 40)] =
      .ok ([e40a, e40b], buf83, { count := 2, bytes := 80 }, [(e40c, 40)]) ∧
    buf83.length = 83 ∧ ¬ (buf83.length = 82) :=
  ⟨rfl, by simp [buf83], by simp [buf83]⟩

/-- Claim C9: partition is a pure total deterministic function of the
event metadata with no error condition — it returns the attached API
key, and an event with no routing metadata is resolved to the
process-configured default key by the pipeline, never a failure. -/
theorem partition_pure_total_default :
    (∀ a b : Event, a.apiKey = b.apiKey → partition a = partition b) ∧
    (∀ (d : String) (e : Event), partition e = none →
        run_inner_resolve_key d (partition e) = d) ∧
    (∀ (d k : String) (e : Event), partition e = some k →
        run_inner_resolve_key d (partition e) = k) := by
  refine ⟨fun a b h => h, fun d e h => ?_, fun d k e h => ?_⟩ <;> rw [h] <;> rfl

/-- Witness for claim C9: a keyless event resolves to the default key, a
keyed event to its own key. -/
theorem partition_pure_total_default_witness :
    run_inner_resolve_key "default" (partition evA) = "default" ∧
    run_inner_resolve_key "default" (partition evKeyed) = "A" :=
  ⟨partition_pure_total_default.2.1 "default" evA rfl,
   partition_pure_total_default.2.2 "default" "A" evKeyed rfl⟩

/-- Claim C10: build_request never returns the PayloadTooBig error kind
— an event too large for any buffer is dropped with a telemetry signal
inside the loop, so that variant is unreachable from build_request. -/
theorem build_request_never_payload_too_big :
    ∀ (B : LogRequestBuilder) (cap : Nat) (events : List Event)
      (api_key : String),
      is_payload_too_big_error (build_request B cap events api_key) = false :=
  fun B cap events api_key => buildLoop_not_payload_too_big B cap api_key
    (events.map fun event => (B.transform event, (B.transform event).estimate))

end DatadogLogs
